import Mathlib

/-!
Verification of the critical-speed calculator core: the parameter
estimators (`calculate_cs_from_ramp`, `calculate_cs_from_3_5min`,
`calculate_cs_from_tte`, `calculate_cs_from_time_trials`) and the
reserve-balance simulator (`d_prime_balance`), shallowly embedded over
real numbers from `critical-speed-run.py`.
-/

open Real

/-- One transition of the simulator loop body (lines 254-265 of the
source): `expenditure = max 0 (x - cs)`, `recovery = min 0 (x - cs)`;
linear depletion when `expenditure > 0`, exponential reconstitution
otherwise, then the clamp `min d_prime (max 0 _)`. -/
noncomputable def dpbStep (cs d_prime tau prev x : ℝ) : ℝ :=
  let expenditure := max 0 (x - cs)
  let recovery := min 0 (x - cs)
  let next :=
    if expenditure > 0 then prev - expenditure
    else d_prime - (d_prime - prev) * Real.exp (recovery / (tau * cs))
  min d_prime (max 0 next)

/-- Successive states produced by running the loop body over a list of
consumed intensity samples, starting from state `prev`. -/
noncomputable def dpbAux (cs d_prime tau : ℝ) : ℝ → List ℝ → List ℝ
  | _, [] => []
  | prev, x :: rest =>
    dpbStep cs d_prime tau prev x ::
      dpbAux cs d_prime tau (dpbStep cs d_prime tau prev x) rest

/-- `d_prime_balance` from the source: the trace starts at `d_prime`
(the array is initialised to `d_prime` everywhere and entry 0 is never
rewritten), and entry `i` (for `1 ≤ i < N`) is obtained from entry
`i-1` and the previous intensity sample `speed_data[i-1]`; the loop
consumes exactly the first `N-1` samples. -/
noncomputable def d_prime_balance (speed_data : List ℝ) (cs d_prime tau : ℝ) : List ℝ :=
  match speed_data with
  | [] => []
  | _ :: _ => d_prime :: dpbAux cs d_prime tau d_prime speed_data.dropLast

/-- The same recurrence as a function of the step index, over an
unbounded sample stream: `iterBal g x init i` is the state after `i`
transitions. -/
noncomputable def iterBal (g : ℝ → ℝ → ℝ) (x : ℕ → ℝ) (init : ℝ) : ℕ → ℝ
  | 0 => init
  | i + 1 => g (iterBal g x init i) (x i)

/-- `calculate_cs_from_ramp` from the source (lines 147-152). -/
noncomputable def calculate_cs_from_ramp (final_speed time_to_exhaustion ramp_rate : ℝ) :
    ℝ × ℝ :=
  (final_speed - 0.5 * ramp_rate * time_to_exhaustion / 60,
   0.5 * ramp_rate * (time_to_exhaustion / 60) ^ 2)

/-- `calculate_cs_from_3_5min` from the source (lines 140-145). -/
noncomputable def calculate_cs_from_3_5min (distance_3min distance_5min : ℝ) : ℝ × ℝ :=
  let time_diff : ℝ := 120
  let cs := (distance_5min - distance_3min) / time_diff
  let d_prime := distance_3min - cs * 180
  (cs, d_prime)

/-- Error raised by a failing regression fit. -/
inductive FitError
  | insufficientData
  | singular

/-- Modelled from the spec: `scipy.optimize.curve_fit`, which is not
part of this repository, applied to a model that is linear in its two
parameters (both estimator models here are). It computes the ordinary
least-squares line through the points `(us i, ys i)` and fails — as the
spec's FitError — when fewer data points than parameters are supplied,
when the two input arrays have mismatched lengths, or when the normal
system is singular. -/
noncomputable def lsq_fit (us ys : List ℝ) : Except FitError (ℝ × ℝ) :=
  if us.length < 2 ∨ us.length ≠ ys.length then .error .insufficientData
  else
    let n : ℝ := us.length
    let su := us.sum
    let sy := ys.sum
    let suu := (us.map (fun u => u * u)).sum
    let suy := (List.zipWith (fun a b => a * b) us ys).sum
    let det := n * suu - su * su
    if det = 0 then .error .singular
    else .ok ((n * suy - su * sy) / det, (suu * sy - su * suy) / det)

/-- `calculate_cs_from_time_trials` from the source (lines 130-138):
fits `distance = cs * t + d_prime`, with the fit delegated to the
modelled `lsq_fit` (slope is `cs`, intercept is `d_prime`); no length
guard, so a degenerate input surfaces the fit's error. -/
noncomputable def calculate_cs_from_time_trials (distances times : List ℝ) :
    Except FitError (ℝ × ℝ) :=
  match lsq_fit times distances with
  | .error e => .error e
  | .ok p => .ok (p.1, p.2)

/-- `calculate_cs_from_tte` from the source (lines 154-164): returns
the `(0, 0)` sentinel when either input has fewer than 2 elements,
otherwise fits `speed = cs + d_prime / t`, linear in `(cs, d_prime)`
with regressor `1/t` (intercept is `cs`, slope is `d_prime`). -/
noncomputable def calculate_cs_from_tte (speeds times : List ℝ) :
    Except FitError (ℝ × ℝ) :=
  if speeds.length < 2 ∨ times.length < 2 then .ok (0, 0)
  else
    match lsq_fit (times.map (fun t => 1 / t)) speeds with
    | .error e => .error e
    | .ok p => .ok (p.2, p.1)

lemma dpbAux_length (cs d_prime tau : ℝ) :
    ∀ (prev : ℝ) (inputs : List ℝ),
      (dpbAux cs d_prime tau prev inputs).length = inputs.length := by
  intro prev inputs
  induction inputs generalizing prev with
  | nil => rfl
  | cons x rest ih => simp [dpbAux, ih]

lemma d_prime_balance_length (xs : List ℝ) (cs d_prime tau : ℝ) :
    (d_prime_balance xs cs d_prime tau).length = xs.length := by
  cases xs with
  | nil => rfl
  | cons x rest =>
    simp [d_prime_balance, dpbAux_length, List.length_dropLast]

lemma iterBal_congr (g : ℝ → ℝ → ℝ) (x y : ℕ → ℝ) (init : ℝ) :
    ∀ n, (∀ j, j < n → x j = y j) → iterBal g x init n = iterBal g y init n := by
  intro n
  induction n with
  | zero => intro _; rfl
  | succ k ih =>
    intro h
    simp only [iterBal]
    rw [ih (fun j hj => h j (Nat.lt_succ_of_lt hj)), h k (Nat.lt_succ_self k)]

lemma iterBal_shift (g : ℝ → ℝ → ℝ) (x : ℕ → ℝ) (init : ℝ) :
    ∀ n, iterBal g (fun j => x (j + 1)) (g init (x 0)) n = iterBal g x init (n + 1) := by
  intro n
  induction n with
  | zero => rfl
  | succ k ih =>
    simp only [iterBal]
    rw [ih]
    simp only [iterBal]

lemma dpbAux_getD (cs d_prime tau : ℝ) :
    ∀ (inputs : List ℝ) (init : ℝ) (i : ℕ), i < inputs.length →
      (dpbAux cs d_prime tau init inputs).getD i 0 =
        iterBal (dpbStep cs d_prime tau) (fun j => inputs.getD j 0) init (i + 1) := by
  intro inputs
  induction inputs with
  | nil => intro init i hi; exact absurd hi (Nat.not_lt_zero i)
  | cons x rest ih =>
    intro init i hi
    cases i with
    | zero => simp [dpbAux, iterBal]
    | succ k =>
      have hk : k < rest.length := Nat.lt_of_succ_lt_succ hi
      have hx : (fun j => rest.getD j 0) = fun j => (x :: rest).getD (j + 1) 0 := by
        funext j; simp
      calc (dpbAux cs d_prime tau init (x :: rest)).getD (k + 1) 0
          = (dpbAux cs d_prime tau (dpbStep cs d_prime tau init x) rest).getD k 0 := by
            simp [dpbAux]
        _ = iterBal (dpbStep cs d_prime tau) (fun j => rest.getD j 0)
              (dpbStep cs d_prime tau init x) (k + 1) := ih _ k hk
        _ = iterBal (dpbStep cs d_prime tau) (fun j => (x :: rest).getD (j + 1) 0)
              (dpbStep cs d_prime tau init ((x :: rest).getD 0 0)) (k + 1) := by
            rw [hx]; simp
        _ = iterBal (dpbStep cs d_prime tau) (fun j => (x :: rest).getD j 0) init (k + 2) :=
            iterBal_shift (dpbStep cs d_prime tau) (fun j => (x :: rest).getD j 0) init (k + 1)

lemma getD_dropLast (l : List ℝ) :
    ∀ j, j < l.dropLast.length → l.dropLast.getD j 0 = l.getD j 0 := by
  induction l with
  | nil => intro j hj; exact absurd hj (Nat.not_lt_zero j)
  | cons x rest ih =>
    intro j hj
    cases rest with
    | nil => simp [List.dropLast] at hj
    | cons y t =>
      cases j with
      | zero => simp [List.dropLast]
      | succ k =>
        have hk : k < (y :: t).dropLast.length := by
          simpa [List.dropLast] using hj
        simpa [List.dropLast] using ih k hk

/-- Index-level characterisation of the trace: entry `i` equals the
`i`-fold iterate of the step function over the samples. -/
lemma d_prime_balance_getD (xs : List ℝ) (cs d_prime tau : ℝ) (i : ℕ)
    (hi : i < xs.length) :
    (d_prime_balance xs cs d_prime tau).getD i 0 =
      iterBal (dpbStep cs d_prime tau) (fun j => xs.getD j 0) d_prime i := by
  cases xs with
  | nil => exact absurd hi (Nat.not_lt_zero i)
  | cons x rest =>
    cases i with
    | zero => simp [d_prime_balance, iterBal]
    | succ k =>
      have hk : k < ((x :: rest).dropLast).length := by
        simpa [List.length_dropLast] using Nat.lt_of_succ_lt_succ hi
      have h1 : (d_prime_balance (x :: rest) cs d_prime tau).getD (k + 1) 0 =
          (dpbAux cs d_prime tau d_prime ((x :: rest).dropLast)).getD k 0 := by
        simp [d_prime_balance]
      rw [h1, dpbAux_getD cs d_prime tau _ d_prime k hk]
      exact iterBal_congr _ _ _ _ (k + 1) (fun j hj => by
        have hj' : j < ((x :: rest).dropLast).length := Nat.lt_of_lt_of_le hj hk
        exact getD_dropLast (x :: rest) j hj')

lemma dpbStep_depletion (cs d_prime tau prev x : ℝ) (h : 0 < x - cs) :
    dpbStep cs d_prime tau prev x = min d_prime (max 0 (prev - (x - cs))) := by
  simp only [dpbStep]
  rw [max_eq_right h.le, if_pos h]

lemma dpbStep_recovery (cs d_prime tau prev x : ℝ) (h : x - cs ≤ 0) :
    dpbStep cs d_prime tau prev x =
      min d_prime (max 0 (d_prime - (d_prime - prev) * Real.exp ((x - cs) / (tau * cs)))) := by
  simp only [dpbStep]
  rw [max_eq_left h, min_eq_right h, if_neg (lt_irrefl 0)]

lemma getD_replicate (a : ℝ) :
    ∀ (n j : ℕ), j < n → (List.replicate n a).getD j 0 = a := by
  intro n
  induction n with
  | zero => intro j hj; exact absurd hj (Nat.not_lt_zero j)
  | succ m ih =>
    intro j hj
    cases j with
    | zero => simp [List.replicate]
    | succ k => simpa [List.replicate] using ih k (Nat.lt_of_succ_lt_succ hj)

/-- C1: the simulator's step is exactly the asymmetric recurrence: for `1 ≤ i < N`,
entry `i` of the trace is the clamp of linear depletion when the previous sample
exceeds the threshold, and the clamp of exponential reconstitution otherwise,
both driven by the previous sample `x[i-1]`. -/
theorem C1_simulator_recurrence (xs : List ℝ) (cs d_prime tau : ℝ) (hcs : 0 < cs)
    (i : ℕ) (h1 : 1 ≤ i) (hi : i < xs.length) :
    (0 < xs.getD (i - 1) 0 - cs →
      (d_prime_balance xs cs d_prime tau).getD i 0 =
        min d_prime (max 0 ((d_prime_balance xs cs d_prime tau).getD (i - 1) 0 -
          (xs.getD (i - 1) 0 - cs)))) ∧
    (xs.getD (i - 1) 0 - cs ≤ 0 →
      (d_prime_balance xs cs d_prime tau).getD i 0 =
        min d_prime (max 0 (d_prime -
          (d_prime - (d_prime_balance xs cs d_prime tau).getD (i - 1) 0) *
            Real.exp ((xs.getD (i - 1) 0 - cs) / (tau * cs))))) := by
  obtain ⟨k, rfl⟩ : ∃ k, i = k + 1 := ⟨i - 1, (Nat.succ_pred_eq_of_pos h1).symm⟩
  simp only [Nat.add_sub_cancel]
  have hk : k < xs.length := Nat.lt_of_succ_lt hi
  rw [d_prime_balance_getD xs cs d_prime tau (k + 1) hi,
      d_prime_balance_getD xs cs d_prime tau k hk]
  simp only [iterBal]
  constructor
  · intro h
    rw [dpbStep_depletion cs d_prime tau _ _ h]
  · intro h
    rw [dpbStep_recovery cs d_prime tau _ _ h]

theorem C1_simulator_recurrence_witness :
    (0:ℝ) < 1 ∧ 1 ≤ 1 ∧ 1 < ([(2:ℝ), 0] : List ℝ).length ∧
      ((0 < ([(2:ℝ), 0] : List ℝ).getD 0 0 - 1 →
        (d_prime_balance [(2:ℝ), 0] 1 5 300).getD 1 0 =
          min 5 (max 0 ((d_prime_balance [(2:ℝ), 0] 1 5 300).getD 0 0 -
            (([(2:ℝ), 0] : List ℝ).getD 0 0 - 1)))) ∧
      (([(2:ℝ), 0] : List ℝ).getD 0 0 - 1 ≤ 0 →
        (d_prime_balance [(2:ℝ), 0] 1 5 300).getD 1 0 =
          min 5 (max 0 (5 -
            (5 - (d_prime_balance [(2:ℝ), 0] 1 5 300).getD 0 0) *
              Real.exp ((([(2:ℝ), 0] : List ℝ).getD 0 0 - 1) / (300 * 1)))))) :=
  ⟨by norm_num, le_refl 1, by decide,
    C1_simulator_recurrence [(2:ℝ), 0] 1 5 300 (by norm_num) 1 (le_refl 1) (by decide)⟩

/-- C2: clamping invariant — with a positive threshold, a nonnegative reserve and
a positive time constant, every element of the balance trace lies in `[0, reserve]`. -/
theorem C2_clamping_invariant (xs : List ℝ) (cs d_prime tau : ℝ)
    (hcs : 0 < cs) (hd : 0 ≤ d_prime) (htau : 0 < tau) :
    ∀ b ∈ d_prime_balance xs cs d_prime tau, 0 ≤ b ∧ b ≤ d_prime := by
  have aux : ∀ (inputs : List ℝ) (prev : ℝ),
      ∀ b ∈ dpbAux cs d_prime tau prev inputs, 0 ≤ b ∧ b ≤ d_prime := by
    intro inputs
    induction inputs with
    | nil => intro prev b hb; simp [dpbAux] at hb
    | cons x rest ih =>
      intro prev b hb
      simp only [dpbAux, List.mem_cons] at hb
      rcases hb with rfl | hb
      · simp only [dpbStep]
        exact ⟨le_min hd (le_max_left _ _), min_le_left _ _⟩
      · exact ih _ b hb
  cases xs with
  | nil => intro b hb; simp [d_prime_balance] at hb
  | cons x rest =>
    intro b hb
    simp only [d_prime_balance, List.mem_cons] at hb
    rcases hb with rfl | hb
    · exact ⟨hd, le_refl _⟩
    · exact aux _ _ b hb

theorem C2_clamping_invariant_witness :
    (0:ℝ) < 1 ∧ (0:ℝ) ≤ 5 ∧ (0:ℝ) < 300 ∧ (0 ≤ (5:ℝ) ∧ (5:ℝ) ≤ 5) := by
  refine ⟨by norm_num, by norm_num, by norm_num, ?_⟩
  have h5 : (5:ℝ) ∈ d_prime_balance [(1:ℝ)] 1 5 300 := by
    simp [d_prime_balance, dpbAux, List.dropLast]
  exact C2_clamping_invariant [(1:ℝ)] 1 5 300 (by norm_num) (by norm_num) (by norm_num) 5 h5

lemma iterBal_const_overload (cs d_prime c tau : ℝ) (hd : 0 ≤ d_prime) (hc : 0 < c) :
    ∀ i, iterBal (dpbStep cs d_prime tau) (fun _ => cs + c) d_prime i =
      max 0 (d_prime - i * c) := by
  intro i
  induction i with
  | zero => simp [iterBal, max_eq_right hd]
  | succ k ih =>
    simp only [iterBal]
    rw [ih]
    have hx : cs + c - cs = c := by ring
    rw [dpbStep_depletion cs d_prime tau _ _ (by rw [hx]; exact hc), hx]
    push_cast
    have hkc : (0:ℝ) ≤ (k:ℝ) * c := mul_nonneg (Nat.cast_nonneg k) hc.le
    rcases le_or_lt 0 (d_prime - (k:ℝ) * c) with h1 | h1
    · rw [max_eq_right h1]
      have hv : d_prime - (k:ℝ) * c - c = d_prime - ((k:ℝ) + 1) * c := by ring
      rw [hv]
      apply min_eq_right
      apply max_le hd
      nlinarith
    · rw [max_eq_left h1.le, zero_sub, max_eq_left (neg_nonpos.mpr hc.le),
        min_eq_right hd]
      symm
      apply max_eq_left
      nlinarith

/-- C3: under a constant overload `threshold + c` with `c > 0`, the trace drains
linearly and exactly: entry `i` equals `max 0 (reserve - i*c)`. -/
theorem C3_monotone_depletion (N : ℕ) (cs d_prime c tau : ℝ)
    (hcs : 0 < cs) (hd : 0 ≤ d_prime) (hc : 0 < c) (i : ℕ) (hi : i < N) :
    (d_prime_balance (List.replicate N (cs + c)) cs d_prime tau).getD i 0 =
      max 0 (d_prime - i * c) := by
  have hlen : i < (List.replicate N (cs + c)).length := by simpa using hi
  rw [d_prime_balance_getD _ _ _ _ i hlen]
  have hcongr : iterBal (dpbStep cs d_prime tau)
      (fun j => (List.replicate N (cs + c)).getD j 0) d_prime i =
      iterBal (dpbStep cs d_prime tau) (fun _ => cs + c) d_prime i := by
    apply iterBal_congr
    intro j hj
    exact getD_replicate (cs + c) N j (lt_trans hj hi)
  rw [hcongr]
  exact iterBal_const_overload cs d_prime c tau hd hc i

theorem C3_monotone_depletion_witness :
    (0:ℝ) < 1 ∧ (0:ℝ) ≤ 5 ∧ (0:ℝ) < 2 ∧ 2 < 3 ∧
      (d_prime_balance (List.replicate 3 ((1:ℝ) + 2)) 1 5 300).getD 2 0 =
        max 0 (5 - (2:ℕ) * (2:ℝ)) :=
  ⟨by norm_num, by norm_num, by norm_num, by norm_num,
    C3_monotone_depletion 3 1 5 2 300 (by norm_num) (by norm_num) (by norm_num) 2
      (by norm_num)⟩

lemma iterBal_rest_const (cs d_prime tau : ℝ) (hcs : 0 < cs) (hd : 0 ≤ d_prime) :
    ∀ i, iterBal (dpbStep cs d_prime tau) (fun _ => 0) d_prime i = d_prime := by
  intro i
  induction i with
  | zero => rfl
  | succ k ih =>
    simp only [iterBal]
    rw [ih, dpbStep_recovery cs d_prime tau d_prime 0 (by linarith),
      sub_self, zero_mul, sub_zero, max_eq_right hd, min_self]

/-- C4: under sustained rest (all samples 0) with a positive threshold, the trace
is monotonically non-decreasing, and the unbounded iterate of the same recurrence
tends to the full reserve. -/
theorem C4_full_recovery (N : ℕ) (cs d_prime tau : ℝ)
    (hcs : 0 < cs) (hd : 0 ≤ d_prime) (htau : 0 < tau) :
    (∀ i, 1 ≤ i → i < N →
      (d_prime_balance (List.replicate N (0:ℝ)) cs d_prime tau).getD (i - 1) 0 ≤
        (d_prime_balance (List.replicate N (0:ℝ)) cs d_prime tau).getD i 0) ∧
    Filter.Tendsto (fun i => iterBal (dpbStep cs d_prime tau) (fun _ => 0) d_prime i)
      Filter.atTop (nhds d_prime) := by
  have hfun : (fun j => (List.replicate N (0:ℝ)).getD j 0) = fun _ => (0:ℝ) := by
    funext j
    rcases lt_or_ge j N with h | h
    · exact getD_replicate 0 N j h
    · exact List.getD_eq_default _ _ (by simpa using h)
  constructor
  · intro i h1 hi
    have hgi : (d_prime_balance (List.replicate N (0:ℝ)) cs d_prime tau).getD i 0 =
        d_prime := by
      rw [d_prime_balance_getD _ _ _ _ i (by simpa using hi), hfun,
        iterBal_rest_const cs d_prime tau hcs hd]
    have hi1 : i - 1 < N := lt_of_le_of_lt (Nat.sub_le i 1) hi
    have hgi1 : (d_prime_balance (List.replicate N (0:ℝ)) cs d_prime tau).getD (i - 1) 0 =
        d_prime := by
      rw [d_prime_balance_getD _ _ _ _ (i - 1) (by simpa using hi1), hfun,
        iterBal_rest_const cs d_prime tau hcs hd]
    rw [hgi, hgi1]
  · have hconst : (fun i => iterBal (dpbStep cs d_prime tau) (fun _ => 0) d_prime i) =
        fun _ => d_prime := funext (iterBal_rest_const cs d_prime tau hcs hd)
    rw [hconst]
    exact tendsto_const_nhds

theorem C4_full_recovery_witness :
    (0:ℝ) < 1 ∧ (0:ℝ) ≤ 5 ∧ (0:ℝ) < 300 ∧
      ((d_prime_balance (List.replicate 2 (0:ℝ)) 1 5 300).getD 0 0 ≤
        (d_prime_balance (List.replicate 2 (0:ℝ)) 1 5 300).getD 1 0) ∧
      Filter.Tendsto (fun i => iterBal (dpbStep 1 5 300) (fun _ => 0) 5 i)
        Filter.atTop (nhds 5) := by
  have H := C4_full_recovery 2 1 5 300 (by norm_num) (by norm_num) (by norm_num)
  exact ⟨by norm_num, by norm_num, by norm_num, H.1 1 (le_refl 1) (by norm_num), H.2⟩

/-- C5: the trace starts at the full reserve, has the same length as the input
series, and a series of length 0 or 1 yields a trace of that length with no
transitions applied. -/
theorem C5_initial_condition (xs : List ℝ) (cs d_prime tau : ℝ) :
    (d_prime_balance xs cs d_prime tau).length = xs.length ∧
    (xs ≠ [] → (d_prime_balance xs cs d_prime tau).getD 0 0 = d_prime) ∧
    d_prime_balance ([] : List ℝ) cs d_prime tau = [] ∧
    ∀ x : ℝ, d_prime_balance [x] cs d_prime tau = [d_prime] := by
  refine ⟨d_prime_balance_length xs cs d_prime tau, ?_, rfl, ?_⟩
  · intro hne
    cases xs with
    | nil => exact absurd rfl hne
    | cons a rest => simp [d_prime_balance]
  · intro x
    simp [d_prime_balance, dpbAux, List.dropLast]

theorem C5_initial_condition_witness :
    (d_prime_balance [(7:ℝ)] 1 5 300).length = ([(7:ℝ)] : List ℝ).length ∧
      (d_prime_balance [(7:ℝ)] 1 5 300).getD 0 0 = 5 ∧
      d_prime_balance ([] : List ℝ) 1 5 300 = [] ∧
      d_prime_balance [(7:ℝ)] 1 5 300 = [5] := by
  obtain ⟨h1, h2, h3, h4⟩ := C5_initial_condition [(7:ℝ)] 1 5 300
  exact ⟨h1, h2 (by simp), h3, h4 7⟩

/-- C6: the ramp estimator computes the spec's closed form, and on the concrete
input `(5, 600, 0.1)` returns `(4.5, 5)` exactly. -/
theorem C6_ramp_closed_form (final_intensity time_to_exhaustion ramp_rate : ℝ) :
    calculate_cs_from_ramp final_intensity time_to_exhaustion ramp_rate =
      (final_intensity - 0.5 * ramp_rate * (time_to_exhaustion / 60),
       0.5 * ramp_rate * (time_to_exhaustion / 60) ^ 2) ∧
    calculate_cs_from_ramp 5 600 0.1 = (4.5, 5) := by
  constructor
  · simp only [calculate_cs_from_ramp, Prod.mk.injEq]
    exact ⟨by ring, trivial⟩
  · simp only [calculate_cs_from_ramp, Prod.mk.injEq]
    constructor <;> norm_num

/-- C7: the 3/5-minute estimator computes the spec's closed form, and on the
concrete input `(800, 1300)` returns `(500/120, 50)` exactly. -/
theorem C7_3_5min_closed_form (distance_3min distance_5min : ℝ) :
    calculate_cs_from_3_5min distance_3min distance_5min =
      ((distance_5min - distance_3min) / 120,
       distance_3min - (distance_5min - distance_3min) / 120 * 180) ∧
    calculate_cs_from_3_5min 800 1300 = (500 / 120, 50) := by
  constructor
  · rfl
  · simp only [calculate_cs_from_3_5min, Prod.mk.injEq]
    constructor <;> norm_num

/-- C8: the hyperbolic time-to-exhaustion estimator returns the `(0, 0)` sentinel
whenever either input sequence has fewer than 2 elements. -/
theorem C8_tte_degenerate (speeds times : List ℝ)
    (h : speeds.length < 2 ∨ times.length < 2) :
    calculate_cs_from_tte speeds times = Except.ok (0, 0) := by
  simp only [calculate_cs_from_tte]
  rw [if_pos h]

theorem C8_tte_degenerate_witness :
    (([] : List ℝ).length < 2 ∨ ([(100:ℝ), 200] : List ℝ).length < 2) ∧
      calculate_cs_from_tte [] [(100:ℝ), 200] = Except.ok (0, 0) :=
  ⟨Or.inl (by decide), C8_tte_degenerate [] [(100:ℝ), 200] (Or.inl (by decide))⟩

/-- C9: the multi-trial linear (time-trial) estimator fails with a `FitError`
whenever fewer than 2 pairs are supplied. -/
theorem C9_time_trials_insufficient (distances times : List ℝ)
    (h : min distances.length times.length < 2) :
    ∃ e : FitError, calculate_cs_from_time_trials distances times = Except.error e := by
  have hguard : times.length < 2 ∨ times.length ≠ distances.length := by omega
  refine ⟨FitError.insufficientData, ?_⟩
  simp only [calculate_cs_from_time_trials, lsq_fit]
  rw [if_pos hguard]

theorem C9_time_trials_insufficient_witness :
    min ([(500:ℝ)] : List ℝ).length ([(120:ℝ)] : List ℝ).length < 2 ∧
      (calculate_cs_from_time_trials [(500:ℝ)] [(120:ℝ)]).toOption = none := by
  refine ⟨by decide, ?_⟩
  obtain ⟨e, he⟩ := C9_time_trials_insufficient [(500:ℝ)] [(120:ℝ)] (by decide)
  rw [he]
  rfl

/-- C10: intensity exactly at the threshold is a fixed point of the transition —
with the previous balance inside `[0, reserve]`, the recovery branch with zero
deficit reproduces it and the clamp is the identity. -/
theorem C10_threshold_fixed_point (xs : List ℝ) (cs d_prime tau : ℝ)
    (hcs : 0 < cs) (htau : 0 < tau) (hd : 0 ≤ d_prime) (i : ℕ) (h1 : 1 ≤ i)
    (hi : i < xs.length) (hx : xs.getD (i - 1) 0 = cs)
    (hlo : 0 ≤ (d_prime_balance xs cs d_prime tau).getD (i - 1) 0)
    (hhi : (d_prime_balance xs cs d_prime tau).getD (i - 1) 0 ≤ d_prime) :
    (d_prime_balance xs cs d_prime tau).getD i 0 =
      (d_prime_balance xs cs d_prime tau).getD (i - 1) 0 := by
  obtain ⟨k, rfl⟩ : ∃ k, i = k + 1 := ⟨i - 1, (Nat.succ_pred_eq_of_pos h1).symm⟩
  simp only [Nat.add_sub_cancel] at hx hlo hhi ⊢
  have hk : k < xs.length := Nat.lt_of_succ_lt hi
  rw [d_prime_balance_getD xs cs d_prime tau k hk] at hlo hhi
  rw [d_prime_balance_getD xs cs d_prime tau (k + 1) hi,
      d_prime_balance_getD xs cs d_prime tau k hk]
  simp only [iterBal]
  rw [hx, dpbStep_recovery cs d_prime tau _ cs (by simp), sub_self, zero_div,
    Real.exp_zero, mul_one, sub_sub_cancel, max_eq_right hlo, min_eq_right hhi]

theorem C10_threshold_fixed_point_witness :
    (0:ℝ) < 1 ∧ (0:ℝ) < 300 ∧ (0:ℝ) ≤ 5 ∧ 1 ≤ 1 ∧ 1 < ([(1:ℝ), 9] : List ℝ).length ∧
      ([(1:ℝ), 9] : List ℝ).getD 0 0 = 1 ∧
      (d_prime_balance [(1:ℝ), 9] 1 5 300).getD 1 0 =
        (d_prime_balance [(1:ℝ), 9] 1 5 300).getD 0 0 := by
  refine ⟨by norm_num, by norm_num, by norm_num, le_refl 1, by decide, by norm_num, ?_⟩
  exact C10_threshold_fixed_point [(1:ℝ), 9] 1 5 300 (by norm_num) (by norm_num)
    (by norm_num) 1 (le_refl 1) (by decide) (by norm_num)
    (by norm_num [d_prime_balance]) (by norm_num [d_prime_balance])
